import Mathlib

/-!
Shallow embedding of the statistics / benchmark-aggregation core of the
fgp-benchmark repository (`benchmarks/statistics.py`, `benchmarks/single_ops.py`,
`benchmarks/workflows.py`, `benchmarks/concurrency.py`), together with theorems
settling the specification claims about it.

Python floats are modelled as exact rationals (`ℚ`); values that the code
obtains through `math.sqrt` / `math.erf` live in `ℝ`.  A Python exception
(`ZeroDivisionError`, `IndexError`) is modelled by an `Option` result being
`none`.
-/

/-- Truncation toward zero, the semantics of Python's `int()` on a float.
On a rational `num/den` (with `den > 0`) this is T-division of the numerator
by the denominator. -/
def pyTrunc (q : ℚ) : ℤ := q.num.tdiv q.den

/-- Python sequence indexing `l[i]`: nonnegative indices from the front,
negative indices from the back, out-of-range raises `IndexError` (`none`). -/
def pyIndex {α : Type} (l : List α) (i : ℤ) : Option α :=
  if 0 ≤ i then l.get? i.toNat
  else if 0 ≤ (l.length : ℤ) + i then l.get? ((l.length : ℤ) + i).toNat
  else none

/-- `statistics.mean` (exact, as Python's statistics module computes via
`Fraction`).  Callers in the source always guard against empty input. -/
def pymean (l : List ℚ) : ℚ := l.sum / l.length

/-- `statistics.variance` (sample variance, `n - 1` denominator).  Callers in
the source always guard against fewer than two data points. -/
def pyvariance (l : List ℚ) : ℚ :=
  (l.map (fun x => (x - pymean l) ^ 2)).sum / ((l.length : ℚ) - 1)

/-- `statistics.stdev`, the square root of the sample variance. -/
noncomputable def pystdev (l : List ℚ) : ℝ := Real.sqrt (pyvariance l)

/-- Python's `sorted` on a list of numbers (ascending, stable — stability is
irrelevant for raw values). -/
def pySorted (l : List ℚ) : List ℚ := List.insertionSort (· ≤ ·) l

/-- `_percentile` from `benchmarks/single_ops.py`:

    if not data: return 0.0
    sorted_data = sorted(data)
    k = (len(sorted_data) - 1) * p / 100
    f = int(k)
    c = f + 1 if f < len(sorted_data) - 1 else f
    return sorted_data[f] + (k - f) * (sorted_data[c] - sorted_data[f])
-/
def percentile (data : List ℚ) (p : ℚ) : Option ℚ :=
  if data = [] then some 0
  else
    let sorted_data := pySorted data
    let k : ℚ := ((sorted_data.length : ℚ) - 1) * p / 100
    let f : ℤ := pyTrunc k
    let c : ℤ := if f < (sorted_data.length : ℤ) - 1 then f + 1 else f
    match pyIndex sorted_data f, pyIndex sorted_data c with
    | some xf, some xc => some (xf + (k - (f : ℚ)) * (xc - xf))
    | _, _ => none

/-! ## Mann-Whitney U test (`mann_whitney_u` in `benchmarks/statistics.py`) -/

/-- One element of the `combined` list built by `mann_whitney_u`: a tuple
`(value, group, original index)` where group 1 is `sample1`, group 2 is
`sample2`. -/
structure MWEntry where
  val : ℚ
  group : ℕ
  idx : ℕ
deriving DecidableEq

/-- The comparison `combined.sort(key=lambda x: x[0])` sorts by. -/
def mwLE (a b : MWEntry) : Prop := a.val ≤ b.val

instance : DecidableRel mwLE := fun a b => inferInstanceAs (Decidable (a.val ≤ b.val))

instance : IsTotal MWEntry mwLE := ⟨fun a b => le_total a.val b.val⟩

instance : IsTrans MWEntry mwLE := ⟨fun _ _ _ h h' => le_trans h h'⟩

/-- `combined = [(v, 1, i) for i, v in enumerate(sample1)] + [(v, 2, i) for i, v in
enumerate(sample2)]`. -/
def mwCombined (s1 s2 : List ℚ) : List MWEntry :=
  (s1.enum.map fun p => ⟨p.2, 1, p.1⟩) ++ (s2.enum.map fun p => ⟨p.2, 2, p.1⟩)

/-- The rank-assignment loop of `mann_whitney_u`: starting at position `i` of
the sorted combined list, each maximal run of equal leading values (Python's
inner `while` taking `j` past the tied block) receives the average rank
`(i + 1 + j) / 2`. -/
def assignRanks : List MWEntry → ℕ → List ℚ
  | [], _ => []
  | e :: es, i =>
    let run := (e :: es).takeWhile (fun f => decide (f.val = e.val))
    let rest := (e :: es).dropWhile (fun f => decide (f.val = e.val))
    let j := i + run.length
    List.replicate run.length (((i : ℚ) + 1 + (j : ℚ)) / 2) ++ assignRanks rest j
termination_by l _ => l.length
decreasing_by
  simp only [List.dropWhile_cons, decide_eq_true_eq, if_pos rfl]
  exact Nat.lt_succ_of_le (List.dropWhile_sublist _).length_le

/-- `mann_whitney_u` from `benchmarks/statistics.py`, parameterized by the
standard-normal CDF `ncdf` (the code computes it with `math.erf`, a
transcendental function taken as a parameter of the embedding). -/
noncomputable def mann_whitney_u (ncdf : ℝ → ℝ) (s1 s2 : List ℚ) : ℚ × ℝ :=
  if s1 = [] ∨ s2 = [] then (0, 1)
  else
    let n1 := s1.length
    let n2 := s2.length
    let sortedc := List.insertionSort mwLE (mwCombined s1 s2)
    let ranks := assignRanks sortedc 0
    let rank1_sum : ℚ :=
      (((ranks.zip sortedc).filter (fun q => decide (q.2.group = 1))).map Prod.fst).sum
    let u1 : ℚ := rank1_sum - (n1 : ℚ) * ((n1 : ℚ) + 1) / 2
    let u2 : ℚ := (n1 : ℚ) * (n2 : ℚ) - u1
    let u : ℚ := min u1 u2
    let mean_u : ℚ := (n1 : ℚ) * (n2 : ℚ) / 2
    let std_u : ℝ := Real.sqrt ((n1 : ℝ) * (n2 : ℝ) * ((n1 : ℝ) + (n2 : ℝ) + 1) / 12)
    if std_u = 0 then (u, 1)
    else
      let z : ℝ := ((u : ℝ) - (mean_u : ℝ)) / std_u
      (u, 2 * (1 - ncdf |z|))

/-- Number of elements of `vals` strictly below `v`. -/
def countLT (v : ℚ) (vals : List ℚ) : ℕ := (vals.filter (fun x => decide (x < v))).length

/-- Number of elements of `vals` equal to `v`. -/
def countEQ (v : ℚ) (vals : List ℚ) : ℕ := (vals.filter (fun x => decide (x = v))).length

/-- Average rank of the tied block containing value `v` in the multiset
`vals`, as the specification describes it: the block of values equal to `v`
occupies one-based positions `countLT v vals + 1 .. countLT v vals + countEQ v
vals` of the sorted list, and its average rank is the midpoint. -/
def specRank (v : ℚ) (vals : List ℚ) : ℚ :=
  (countLT v vals : ℚ) + ((countEQ v vals : ℚ) + 1) / 2

/-- Specification-side rank-sum of `sample1` over the combined samples. -/
def mwSpecRankSum (s1 s2 : List ℚ) : ℚ := (s1.map fun x => specRank x (s1 ++ s2)).sum

/-- Specification-side `U1 = rank-sum(sample1) − n1(n1+1)/2`. -/
def mwSpecU1 (s1 s2 : List ℚ) : ℚ :=
  mwSpecRankSum s1 s2 - (s1.length : ℚ) * ((s1.length : ℚ) + 1) / 2

/-- Specification-side `U = min(U1, U2)` with `U2 = n1·n2 − U1`. -/
def mwSpecU (s1 s2 : List ℚ) : ℚ :=
  min (mwSpecU1 s1 s2) ((s1.length : ℚ) * (s2.length : ℚ) - mwSpecU1 s1 s2)

/-- Specification-side `z = (U − n1·n2/2) / sqrt(n1·n2·(n1+n2+1)/12)`. -/
noncomputable def mwSpecZ (s1 s2 : List ℚ) : ℝ :=
  (((mwSpecU s1 s2 : ℚ) : ℝ) - (s1.length : ℝ) * (s2.length : ℝ) / 2) /
    Real.sqrt ((s1.length : ℝ) * (s2.length : ℝ) * ((s1.length : ℝ) + (s2.length : ℝ) + 1) / 12)

/-- Specification-side two-tailed p-value `2·(1 − Φ(|z|))`. -/
noncomputable def mwSpecP (ncdf : ℝ → ℝ) (s1 s2 : List ℚ) : ℝ :=
  2 * (1 - ncdf |mwSpecZ s1 s2|)

/-! ## Cohen's d, confidence intervals, outlier removal
(`benchmarks/statistics.py`) -/

/-- `cohens_d` from `benchmarks/statistics.py`.  `none` models the
`ZeroDivisionError` Python raises when the pooled-variance denominator
`n1 + n2 - 2` is zero (two singleton samples): the division happens before
the `pooled_std == 0` guard. -/
noncomputable def cohens_d (s1 s2 : List ℚ) : Option ℝ :=
  if s1 = [] ∨ s2 = [] then some 0
  else
    let mean1 := pymean s1
    let mean2 := pymean s2
    let var1 : ℚ := if 1 < s1.length then pyvariance s1 else 0
    let var2 : ℚ := if 1 < s2.length then pyvariance s2 else 0
    let n1 := s1.length
    let n2 := s2.length
    if (n1 : ℚ) + (n2 : ℚ) - 2 = 0 then none
    else
      let pooled_var : ℚ :=
        (((n1 : ℚ) - 1) * var1 + ((n2 : ℚ) - 1) * var2) / ((n1 : ℚ) + (n2 : ℚ) - 2)
      let pooled_std : ℝ := Real.sqrt pooled_var
      if pooled_std = 0 then some 0
      else some (((mean1 : ℝ) - (mean2 : ℝ)) / pooled_std)

/-- `compute_confidence_interval` from `benchmarks/statistics.py`.  The
`z_scores` float-keyed lookup table is modelled with the exact rationals
`0.90 ↦ 1.645`, `0.95 ↦ 1.96`, `0.99 ↦ 2.576`, default `1.96`. -/
noncomputable def compute_confidence_interval (data : List ℚ) (confidence : ℚ) : ℝ × ℝ :=
  if data = [] then (0, 0)
  else
    let n := data.length
    let mean := pymean data
    if n < 2 then ((mean : ℝ), (mean : ℝ))
    else
      let std_err : ℝ := pystdev data / Real.sqrt (n : ℝ)
      let z : ℚ :=
        if confidence = 9 / 10 then 1645 / 1000
        else if confidence = 19 / 20 then 196 / 100
        else if confidence = 99 / 100 then 2576 / 1000
        else 196 / 100
      let margin : ℝ := (z : ℝ) * std_err
      ((mean : ℝ) - margin, (mean : ℝ) + margin)

/-- `remove_outliers` from `benchmarks/statistics.py`: below three points or
at zero standard deviation the data is returned unchanged, otherwise points
farther than `sigma` standard deviations from the mean are dropped. -/
noncomputable def remove_outliers (data : List ℚ) (sigma : ℚ) : List ℚ :=
  if data.length < 3 then data
  else
    let mean := pymean data
    let std : ℝ := pystdev data
    if std = 0 then data
    else data.filter fun x => decide (|(x : ℝ) - (mean : ℝ)| ≤ (sigma : ℝ) * std)

/-! ## Benchmark results and operation summaries (`benchmarks/single_ops.py`,
`tools/base.py`) -/

/-- `BenchmarkResult` from `tools/base.py` (the `metadata` mapping, which no
aggregation reads, is not modelled). -/
structure BenchmarkResult where
  tool : String
  operation : String
  test_case : String
  iteration : ℕ
  latency_ms : ℚ
  success : Bool
  is_cold_start : Bool := false
  payload_size : ℕ := 0
  token_estimate : ℕ := 0
  error : Option String := none

/-- `OperationSummary` from `benchmarks/single_ops.py`. -/
structure OperationSummary where
  tool : String
  operation : String
  test_case : String
  count : ℕ
  success_rate : ℚ
  mean_ms : ℚ
  median_ms : ℚ
  std_dev_ms : ℝ
  min_ms : ℚ
  max_ms : ℚ
  p95_ms : ℚ
  p99_ms : ℚ
  cold_start_ms : Option ℚ
  warm_mean_ms : ℚ

/-- `statistics.median`: middle element of the sorted data for odd length,
average of the two middle elements for even length.  Callers guard against
empty input (the `getD` default is unreachable there). -/
def pymedian (l : List ℚ) : ℚ :=
  let s := pySorted l
  let n := s.length
  if n % 2 = 1 then s.getD (n / 2) 0
  else (s.getD (n / 2 - 1) 0 + s.getD (n / 2) 0) / 2

/-- Python's `min` on a nonempty list (callers guard against empty input). -/
def pymin : List ℚ → ℚ
  | [] => 0
  | x :: xs => xs.foldl min x

/-- Python's `max` on a nonempty list (callers guard against empty input). -/
def pymax : List ℚ → ℚ
  | [] => 0
  | x :: xs => xs.foldl max x

/-- `_compute_summary` from `benchmarks/single_ops.py`.  `none` propagates an
exception from `_percentile` (which cannot occur at p = 95/99 but is part of
the embedding of Python list indexing). -/
noncomputable def compute_summary (results : List BenchmarkResult) : Option OperationSummary :=
  match results with
  | [] => some
      { tool := "unknown", operation := "unknown", test_case := "unknown", count := 0
        success_rate := 0, mean_ms := 0, median_ms := 0, std_dev_ms := 0, min_ms := 0
        max_ms := 0, p95_ms := 0, p99_ms := 0, cold_start_ms := none, warm_mean_ms := 0 }
  | r0 :: _ =>
    let successful := results.filter (fun r => r.success)
    let latencies := successful.map (fun r => r.latency_ms)
    let cold_latencies := (successful.filter (fun r => r.is_cold_start)).map
      (fun r => r.latency_ms)
    let warm_latencies := (successful.filter (fun r => !r.is_cold_start)).map
      (fun r => r.latency_ms)
    match percentile latencies 95, percentile latencies 99 with
    | some p95, some p99 => some
        { tool := r0.tool
          operation := r0.operation
          test_case := r0.test_case
          count := results.length
          success_rate := if results.length ≠ 0 then
            (successful.length : ℚ) / (results.length : ℚ) else 0
          mean_ms := if latencies ≠ [] then pymean latencies else 0
          median_ms := if latencies ≠ [] then pymedian latencies else 0
          std_dev_ms := if 1 < latencies.length then pystdev latencies else 0
          min_ms := if latencies ≠ [] then pymin latencies else 0
          max_ms := if latencies ≠ [] then pymax latencies else 0
          p95_ms := p95
          p99_ms := p99
          cold_start_ms := cold_latencies.head?
          warm_mean_ms := if warm_latencies ≠ [] then pymean warm_latencies else 0 }
    | _, _ => none

/-! ## Workflows (`benchmarks/workflows.py`) -/

/-- Outcome of one Tool Adapter call as the workflow runner sees it: the
`success`/`error` fields of the returned `BenchmarkResult`, together with the
wall-clock duration of the call (the `time.perf_counter()` difference the
runner measures around it, abstracted as a value produced by the call). -/
structure ToolResult where
  success : Bool
  error : Option String
  elapsed_ms : ℚ

/-- A Tool Adapter, reduced to the capabilities the embedded workflows use.
Each capability is a pure function of its arguments: one call, one result. -/
structure MTool where
  name : String
  navigate : String → ToolResult
  fill : String → String → ToolResult
  click : String → ToolResult
  snapshot : ToolResult

/-- `StepResult` from `benchmarks/workflows.py`. -/
structure StepResult where
  step_name : String
  latency_ms : ℚ
  success : Bool
  error : Option String
deriving DecidableEq

/-- `WorkflowResult` from `benchmarks/workflows.py`.  `total_latency_ms` is
modelled as the sum of the recorded step durations (wall-clock time between
steps, e.g. `time.sleep` settles, is not modelled; no claim concerns it). -/
structure WorkflowResult where
  workflow_name : String
  tool : String
  iteration : ℕ
  steps : List StepResult
  total_latency_ms : ℚ
  success : Bool
  error : Option String

/-- Renders the interpolated `r.error` of `f"Step 1 failed: {r.error}"`:
Python formats `None` as the string `"None"`. -/
def pyShowErr : Option String → String
  | some e => e
  | none => "None"

/-- `workflow_login` from `benchmarks/workflows.py`: navigate, fill username,
fill password, click submit, verify snapshot; each of steps 1-4 returns early
on failure with `error = "Step N failed: ..."`. -/
def workflow_login (tool : MTool) (iteration : ℕ) : WorkflowResult :=
  let r1 := tool.navigate "https://the-internet.herokuapp.com/login"
  let s1 : StepResult := ⟨"navigate", r1.elapsed_ms, r1.success, r1.error⟩
  if !r1.success then
    { workflow_name := "login", tool := tool.name, iteration := iteration, steps := [s1]
      total_latency_ms := s1.latency_ms, success := false
      error := some ("Step 1 failed: " ++ pyShowErr r1.error) }
  else
    let r2 := tool.fill "input#username" "tomsmith"
    let s2 : StepResult := ⟨"fill_username", r2.elapsed_ms, r2.success, r2.error⟩
    if !r2.success then
      { workflow_name := "login", tool := tool.name, iteration := iteration
        steps := [s1, s2], total_latency_ms := s1.latency_ms + s2.latency_ms
        success := false, error := some ("Step 2 failed: " ++ pyShowErr r2.error) }
    else
      let r3 := tool.fill "input#password" "SuperSecretPassword!"
      let s3 : StepResult := ⟨"fill_password", r3.elapsed_ms, r3.success, r3.error⟩
      if !r3.success then
        { workflow_name := "login", tool := tool.name, iteration := iteration
          steps := [s1, s2, s3]
          total_latency_ms := s1.latency_ms + s2.latency_ms + s3.latency_ms
          success := false, error := some ("Step 3 failed: " ++ pyShowErr r3.error) }
      else
        let r4 := tool.click "button[type='submit']"
        let s4 : StepResult := ⟨"click_submit", r4.elapsed_ms, r4.success, r4.error⟩
        if !r4.success then
          { workflow_name := "login", tool := tool.name, iteration := iteration
            steps := [s1, s2, s3, s4]
            total_latency_ms := s1.latency_ms + s2.latency_ms + s3.latency_ms + s4.latency_ms
            success := false, error := some ("Step 4 failed: " ++ pyShowErr r4.error) }
        else
          let r5 := tool.snapshot
          let s5 : StepResult := ⟨"verify_snapshot", r5.elapsed_ms, r5.success, r5.error⟩
          let steps := [s1, s2, s3, s4, s5]
          { workflow_name := "login", tool := tool.name, iteration := iteration
            steps := steps
            total_latency_ms :=
              s1.latency_ms + s2.latency_ms + s3.latency_ms + s4.latency_ms + s5.latency_ms
            success := steps.all (fun s => s.success), error := none }

/-- `workflow_search_extract` from `benchmarks/workflows.py`: navigate,
snapshot, click author link (with direct-navigation fallback), snapshot,
navigate back, snapshot.  Only step 1 short-circuits — and it does so without
setting `error`. -/
def workflow_search_extract (tool : MTool) (iteration : ℕ) : WorkflowResult :=
  let r1 := tool.navigate "https://quotes.toscrape.com/"
  let s1 : StepResult := ⟨"navigate", r1.elapsed_ms, r1.success, r1.error⟩
  if !r1.success then
    { workflow_name := "search_extract", tool := tool.name, iteration := iteration
      steps := [s1], total_latency_ms := s1.latency_ms, success := false, error := none }
  else
    let r2 := tool.snapshot
    let s2 : StepResult := ⟨"snapshot_initial", r2.elapsed_ms, r2.success, r2.error⟩
    let rc := tool.click "small.author + a"
    let r3 := if !rc.success then
        tool.navigate "https://quotes.toscrape.com/author/Albert-Einstein/"
      else rc
    let s3 : StepResult := ⟨"click_author",
      (if !rc.success then rc.elapsed_ms + r3.elapsed_ms else rc.elapsed_ms),
      r3.success, r3.error⟩
    let r4 := tool.snapshot
    let s4 : StepResult := ⟨"snapshot_author", r4.elapsed_ms, r4.success, r4.error⟩
    let r5 := tool.navigate "https://quotes.toscrape.com/"
    let s5 : StepResult := ⟨"navigate_back", r5.elapsed_ms, r5.success, r5.error⟩
    let r6 := tool.snapshot
    let s6 : StepResult := ⟨"snapshot_final", r6.elapsed_ms, r6.success, r6.error⟩
    let steps := [s1, s2, s3, s4, s5, s6]
    { workflow_name := "search_extract", tool := tool.name, iteration := iteration
      steps := steps
      total_latency_ms := (steps.map (fun s => s.latency_ms)).sum
      success := steps.all (fun s => s.success), error := none }

/-! ## Concurrency tester (`benchmarks/concurrency.py`) -/

/-- `ConcurrencyResult` from `benchmarks/concurrency.py`. -/
structure ConcurrencyResult where
  tool : String
  parallel_requests : ℕ
  total_time_ms : ℚ
  requests_per_second : ℚ
  success_rate : ℚ
  individual_times_ms : List ℚ

/-- `CONCURRENT_URLS` from `benchmarks/concurrency.py` (five entries). -/
def CONCURRENT_URLS : List String :=
  [ "https://example.com"
  , "https://httpbin.org/get"
  , "https://quotes.toscrape.com/"
  , "https://the-internet.herokuapp.com/"
  , "https://jsonplaceholder.typicode.com/" ]

/-- `urls = CONCURRENT_URLS[:parallel_count]`: the target URLs actually
submitted to the worker pool. -/
def dispatchedUrls (parallel_count : ℕ) : List String := CONCURRENT_URLS.take parallel_count

/-- The worker-pool bound: `ThreadPoolExecutor(max_workers=parallel_count)`. -/
def threadPoolMaxWorkers (parallel_count : ℕ) : ℕ := parallel_count

/-- `test_concurrent_requests` from `benchmarks/concurrency.py`.

The run-time behaviour is abstracted as follows: `outcome u` is what
`future.result(timeout=60)` yields for the request on URL `u` — `some
(success, elapsed)` for a normal return of `_run_single_request`, `none` when
the worker raised or timed out (the `except` branch records `False` with time
`0`).  `completionOrder` is the order `as_completed` yields the futures in;
it is an arbitrary permutation of the dispatched URLs (and is forced to the
dispatch order if a caller hands in anything else, keeping the model total).
`totalTime` is the measured wall-clock time of the whole batch in ms. -/
def test_concurrent_requests (toolName : String) (outcome : String → Option (Bool × ℚ))
    (completionOrder : List String) (totalTime : ℚ) (parallel_count : ℕ) :
    ConcurrencyResult :=
  let urls := dispatchedUrls parallel_count
  let order := if completionOrder.Perm urls then completionOrder else urls
  let outcomes := order.map fun u =>
    match outcome u with
    | some (s, t) => (s, t)
    | none => (false, (0 : ℚ))
  let results := outcomes.map Prod.fst
  let times := outcomes.map Prod.snd
  let success_rate : ℚ :=
    if results ≠ [] then ((results.countP id : ℕ) : ℚ) / (results.length : ℚ) else 0
  let rps : ℚ :=
    if 0 < totalTime then (parallel_count : ℚ) / (totalTime / 1000) else 0
  { tool := toolName, parallel_requests := parallel_count, total_time_ms := totalTime
    requests_per_second := rps, success_rate := success_rate
    individual_times_ms := times }

/-! ## Comparator (`compute_statistics` in `benchmarks/statistics.py`) -/

/-- One raw trial record as `compute_statistics` reads it from
`report.single_ops["raw_results"]` (a `BenchmarkResult.__dict__`): the fields
`tool`, `operation`, `success`, `latency_ms` are the only ones it touches. -/
structure RawResult where
  tool : String
  operation : String
  success : Bool
  latency_ms : ℚ
deriving DecidableEq

/-- The payload stored for one pairwise comparison.  `run_significance_tests`
receives the two tool names and their latency samples; its numeric summary
fields (U, p, d, CIs) are not modelled — no claim depends on them, and the
pairing structure is what `compute_statistics` adds. -/
structure SigResult where
  tool_a : String
  tool_b : String
  data_a : List ℚ
  data_b : List ℚ
deriving DecidableEq

/-- Python dict write `m[k].append(v)` after `m.setdefault(k, [])`: the
`by_tool_op` accumulation (`if key not in by_tool_op: by_tool_op[key] = []`
followed by an append). -/
def dictInsertLat (m : List (String × List ℚ)) (k : String) (v : ℚ) :
    List (String × List ℚ) :=
  if m.any (fun p => p.1 = k) then
    m.map fun p => if p.1 = k then (p.1, p.2 ++ [v]) else p
  else m ++ [(k, [v])]

/-- Python dict write `m[k] = v`: overwrites in place if the key exists
(keeping its position), otherwise appends. -/
def dictInsertComp (m : List (String × SigResult)) (k : String) (v : SigResult) :
    List (String × SigResult) :=
  if m.any (fun p => p.1 = k) then
    m.map fun p => if p.1 = k then (p.1, v) else p
  else m ++ [(k, v)]

/-- Python dict read `m[k]` / `k in m`. -/
def dictLookup {β : Type} (m : List (String × β)) (k : String) : Option β :=
  (m.find? (fun p => p.1 = k)).map Prod.snd

/-- `list(set(xs))`: deduplication.  Python's set iteration order is
unspecified; the embedding fixes first-occurrence order, one admissible
realization. -/
def pyListSet (l : List String) : List String :=
  l.foldl (fun acc x => if x ∈ acc then acc else acc ++ [x]) []

/-- The pairs `(tools[i], tools[j])` with `i < j`, in the order the nested
loops `for i, tool_a in enumerate(tools): for tool_b in tools[i+1:]` visit
them. -/
def upairs {α : Type} : List α → List (α × α)
  | [] => []
  | a :: rest => (rest.map fun b => (a, b)) ++ upairs rest

/-- The `by_tool_op` grouping of `compute_statistics`: successful trials'
latencies keyed by `f"{r['tool']}_{r['operation']}"`, in iteration order. -/
def buildByToolOp (raw : List RawResult) : List (String × List ℚ) :=
  raw.foldl
    (fun m r =>
      if r.success then dictInsertLat m (r.tool ++ "_" ++ r.operation) r.latency_ms else m)
    []

/-- The pairwise-comparison loop of `compute_statistics` from
`benchmarks/statistics.py`: for each operation and each ordered pair of
distinct tools, if both `f"{tool}_{op}"` keys have grouped data, store the
comparison under the key `f"{op}_{tool_a}_vs_{tool_b}"`.  The returned list
models the `stats["comparisons"]` dict. -/
def compute_statistics (raw : List RawResult) : List (String × SigResult) :=
  let by_tool_op := buildByToolOp raw
  let tools := pyListSet (raw.map fun r => r.tool)
  let operations := pyListSet (raw.map fun r => r.operation)
  operations.foldl
    (fun m op =>
      (upairs tools).foldl
        (fun m' ab =>
          match dictLookup by_tool_op (ab.1 ++ "_" ++ op),
              dictLookup by_tool_op (ab.2 ++ "_" ++ op) with
          | some data_a, some data_b =>
            dictInsertComp m' (op ++ "_" ++ ab.1 ++ "_vs_" ++ ab.2)
              ⟨ab.1, ab.2, data_a, data_b⟩
          | _, _ => m')
        m)
    []

/-- `raw` contains at least one successful trial of tool `t` on operation
`op`. -/
def hasSucc (raw : List RawResult) (t op : String) : Prop :=
  ∃ r ∈ raw, r.tool = t ∧ r.operation = op ∧ r.success = true

instance (raw : List RawResult) (t op : String) : Decidable (hasSucc raw t op) :=
  inferInstanceAs (Decidable (∃ r ∈ raw, _ ∧ _ ∧ _))

/-- A string that avoids the `"_"` separator `compute_statistics` builds its
dict keys from. -/
def noUS (s : String) : Prop := '_' ∉ s.data

instance (s : String) : Decidable (noUS s) := inferInstanceAs (Decidable ('_' ∉ s.data))

/-- The single comparison `compute_statistics` would store for operation `op`
and the ordered tool pair `ab`, if both grouping keys have data: the dict key
and the stored payload. -/
def pairItem (bto : List (String × List ℚ)) (op : String) (ab : String × String) :
    Option (String × SigResult) :=
  match dictLookup bto (ab.1 ++ "_" ++ op), dictLookup bto (ab.2 ++ "_" ++ op) with
  | some data_a, some data_b =>
    some (op ++ "_" ++ ab.1 ++ "_vs_" ++ ab.2, ⟨ab.1, ab.2, data_a, data_b⟩)
  | _, _ => none

/-- Folding a sequence of Python dict writes `m[k] = v` into `m`. -/
def insertAll (m : List (String × SigResult)) (items : List (String × SigResult)) :
    List (String × SigResult) :=
  items.foldl (fun acc kv => dictInsertComp acc kv.1 kv.2) m

/-- The comparisons `compute_statistics` generates, in generation order,
before dict-key collisions can overwrite earlier entries. -/
def allItems (raw : List RawResult) : List (String × SigResult) :=
  (pyListSet (raw.map fun r => r.operation)).flatMap fun op =>
    (upairs (pyListSet (raw.map fun r => r.tool))).filterMap
      (pairItem (buildByToolOp raw) op)

/-- The concrete raw-result pool of the comparator counterexample: tool
names `q_r`, `r`, `s` and operations `p`, `p_q` make the comparison keys for
(operation `p`, pair `q_r`/`s`) and (operation `p_q`, pair `r`/`s`) collide
on the string `"p_q_r_vs_s"`. -/
def c3raw : List RawResult :=
  [⟨"q_r", "p", true, 1⟩, ⟨"r", "p_q", true, 1⟩, ⟨"s", "p", true, 1⟩, ⟨"s", "p_q", true, 1⟩]

/-! ## Concrete instances used by witnesses and counterexamples -/

/-- An adapter whose every capability fails with error `"boom"`. -/
def failTool : MTool :=
  { name := "failtool"
    navigate := fun _ => ⟨false, some "boom", 0⟩
    fill := fun _ _ => ⟨false, some "boom", 0⟩
    click := fun _ => ⟨false, some "boom", 0⟩
    snapshot := ⟨false, some "boom", 0⟩ }

/-- The worker outcomes of the specification's concurrency example: the first
two dispatched URLs succeed in 200 ms, every other worker raises. -/
def exampleOutcome : String → Option (Bool × ℚ) := fun u =>
  if u = "https://example.com" then some (true, 200)
  else if u = "https://httpbin.org/get" then some (true, 200)
  else none

/-- Five successful trials with latencies 100, 100, 100, 100, 500 ms —
the specification's concrete summary scenario. -/
def c7results : List BenchmarkResult :=
  [ { tool := "fgp", operation := "navigate", test_case := "navigate_simple", iteration := 0
      latency_ms := 100, success := true }
  , { tool := "fgp", operation := "navigate", test_case := "navigate_simple", iteration := 1
      latency_ms := 100, success := true }
  , { tool := "fgp", operation := "navigate", test_case := "navigate_simple", iteration := 2
      latency_ms := 100, success := true }
  , { tool := "fgp", operation := "navigate", test_case := "navigate_simple", iteration := 3
      latency_ms := 100, success := true }
  , { tool := "fgp", operation := "navigate", test_case := "navigate_simple", iteration := 4
      latency_ms := 500, success := true } ]

/-! ## Helper lemmas -/

lemma pyTrunc_eq_floor (q : ℚ) (h : 0 ≤ q) : pyTrunc q = ⌊q⌋ := by
  rw [Rat.floor_def, pyTrunc]
  exact Int.tdiv_eq_ediv (Rat.num_nonneg.mpr h) (Int.natCast_nonneg _)

lemma pySorted_sorted (l : List ℚ) : (pySorted l).Sorted (· ≤ ·) :=
  List.sorted_insertionSort _ l

lemma pySorted_perm (l : List ℚ) : (pySorted l).Perm l :=
  List.perm_insertionSort _ l

lemma pySorted_length (l : List ℚ) : (pySorted l).length = l.length :=
  List.length_insertionSort _ l

lemma pySorted_getElem_max (l : List ℚ) (m : ℚ) (hm : l.maximum = some m)
    (h : l.length - 1 < (pySorted l).length) : (pySorted l)[l.length - 1] = m := by
  have hperm := pySorted_perm l
  have hmem : m ∈ pySorted l := hperm.mem_iff.mpr (List.maximum_mem hm)
  obtain ⟨j, hj, hjm⟩ := List.getElem_of_mem hmem
  have hle1 : (pySorted l)[l.length - 1] ≤ m :=
    List.le_maximum_of_mem (hperm.mem_iff.mp (List.getElem_mem h)) hm
  have hle2 : m ≤ (pySorted l)[l.length - 1] := by
    rw [← hjm]
    exact (pySorted_sorted l).rel_get_of_le
      (show (⟨j, hj⟩ : Fin _) ≤ ⟨l.length - 1, h⟩ by
        simp only [Fin.mk_le_mk]
        have := pySorted_length l
        omega)
  exact le_antisymm hle1 hle2

lemma remove_outliers_sublist (data : List ℚ) (sigma : ℚ) :
    (remove_outliers data sigma).Sublist data := by
  simp only [remove_outliers]
  split_ifs
  · exact List.Sublist.refl data
  · exact List.Sublist.refl data
  · exact List.filter_sublist data

/-- The outlier filter, rewritten with the squared, rational-arithmetic form
of its test: for nonnegative `sigma`, `|x − mean| ≤ sigma·stdev` holds iff
`(x − mean)² ≤ sigma²·variance`. -/
lemma remove_outliers_eq_filter_sq (data : List ℚ) (sigma : ℚ) (hs : 0 ≤ sigma)
    (h3 : ¬data.length < 3) (hv : 0 < pyvariance data) :
    remove_outliers data sigma =
      data.filter fun x =>
        decide ((x - pymean data) ^ 2 ≤ sigma ^ 2 * pyvariance data) := by
  have hv' : (0 : ℝ) < (pyvariance data : ℝ) := by exact_mod_cast hv
  have hstd : pystdev data ≠ 0 := by
    rw [pystdev]
    positivity
  simp only [remove_outliers, if_neg h3, if_neg hstd]
  refine List.filter_congr fun x _ => ?_
  have hb : (0 : ℝ) ≤ (sigma : ℝ) * pystdev data := by
    have : (0 : ℝ) ≤ pystdev data := Real.sqrt_nonneg _
    have : (0 : ℝ) ≤ (sigma : ℝ) := by exact_mod_cast hs
    positivity
  have key : (|(x : ℝ) - (pymean data : ℝ)| ≤ (sigma : ℝ) * pystdev data) ↔
      ((x - pymean data : ℚ) ^ 2 ≤ sigma ^ 2 * pyvariance data) := by
    rw [← abs_of_nonneg hb, ← sq_le_sq]
    rw [mul_pow, pystdev, Real.sq_sqrt hv'.le]
    constructor
    · intro h
      have : ((x - pymean data : ℚ) : ℝ) ^ 2 ≤ ((sigma ^ 2 * pyvariance data : ℚ) : ℝ) := by
        push_cast
        convert h using 2
      exact_mod_cast this
    · intro h
      have : ((x - pymean data : ℚ) : ℝ) ^ 2 ≤ ((sigma ^ 2 * pyvariance data : ℚ) : ℝ) := by
        exact_mod_cast h
      push_cast at this
      convert this using 2
  exact decide_eq_decide.mpr key

/-! ## Claim theorems -/

/-- C1: `cohens_d` on the pair of singleton samples `[1.0]`, `[2.0]` does not
return 0 — the pooled-variance expression divides by `n1 + n2 − 2 = 0` and
Python raises `ZeroDivisionError` (modelled as `none`) before the
`pooled_std == 0` guard can fire. -/
theorem c1_cohens_d_singletons_crash : cohens_d [(1 : ℚ)] [(2 : ℚ)] = none := by
  norm_num [cohens_d]

/-- C8: every statistics function returns its neutral value on empty input:
`percentile([], p) = 0`, `mann_whitney_u` with an empty sample is `(0, 1)`,
`cohens_d` with an empty sample is `0`, and `confidence_interval([], c) =
(0, 0)`. -/
theorem c8_empty_safety :
    (∀ p : ℚ, percentile [] p = some 0) ∧
    (∀ (ncdf : ℝ → ℝ) (s : List ℚ),
      mann_whitney_u ncdf [] s = (0, 1) ∧ mann_whitney_u ncdf s [] = (0, 1)) ∧
    (∀ s : List ℚ, cohens_d [] s = some 0 ∧ cohens_d s [] = some 0) ∧
    (∀ c : ℚ, compute_confidence_interval [] c = (0, 0)) := by
  refine ⟨fun p => by simp [percentile], fun ncdf s => ⟨?_, ?_⟩,
    fun s => ⟨?_, ?_⟩, fun c => by simp [compute_confidence_interval]⟩ <;>
    simp [mann_whitney_u, cohens_d]

/-- C10: `remove_outliers` only drops sample points: for every data list and
every sigma the result is a sublist (subsequence, in order, nothing added or
modified) of the input. -/
theorem c10_remove_outliers_sublist (data : List ℚ) (sigma : ℚ) :
    (remove_outliers data sigma).Sublist data :=
  remove_outliers_sublist data sigma

/-- C9 (counterexample): `remove_outliers` at sigma 3 is not idempotent.  On
ten zeros together with 1 and 1000, the first pass removes only 1000 (the
huge outlier inflates the standard deviation enough to shelter 1), and the
second pass then removes 1. -/
theorem c9_not_idempotent :
    remove_outliers
        (remove_outliers [0, 0, 0, 0, 0, 0, 0, 0, 0, 0, 1, 1000] 3) 3 ≠
      remove_outliers [0, 0, 0, 0, 0, 0, 0, 0, 0, 0, 1, 1000] 3 := by
  have hm1 : pymean [0, 0, 0, 0, 0, 0, 0, 0, 0, 0, 1, 1000] = 1001 / 12 := by
    norm_num [pymean]
  have hv1 : pyvariance [0, 0, 0, 0, 0, 0, 0, 0, 0, 0, 1, 1000] = 10998011 / 132 := by
    norm_num [pyvariance, hm1]
  have h1 : remove_outliers [0, 0, 0, 0, 0, 0, 0, 0, 0, 0, 1, 1000] 3 =
      [0, 0, 0, 0, 0, 0, 0, 0, 0, 0, 1] := by
    rw [remove_outliers_eq_filter_sq _ _ (by norm_num) (by norm_num) (by rw [hv1]; norm_num)]
    norm_num [List.filter, hm1, hv1]
  have hm2 : pymean [0, 0, 0, 0, 0, 0, 0, 0, 0, 0, 1] = 1 / 11 := by
    norm_num [pymean]
  have hv2 : pyvariance [0, 0, 0, 0, 0, 0, 0, 0, 0, 0, 1] = 1 / 11 := by
    norm_num [pyvariance, hm2]
  have h2 : remove_outliers [0, 0, 0, 0, 0, 0, 0, 0, 0, 0, 1] 3 =
      [0, 0, 0, 0, 0, 0, 0, 0, 0, 0] := by
    rw [remove_outliers_eq_filter_sq _ _ (by norm_num) (by norm_num) (by rw [hv2]; norm_num)]
    norm_num [List.filter, hm2, hv2]
  rw [h1, h2]
  simp

/-- C9 (amended): a second pass of `remove_outliers` with the same sigma can
only drop further points, never add or change any: the twice-filtered list is
a sublist of the once-filtered list (idempotence itself fails, see the
counterexample). -/
theorem c9_second_pass_sublist (data : List ℚ) (sigma : ℚ) :
    (remove_outliers (remove_outliers data sigma) sigma).Sublist
      (remove_outliers data sigma) :=
  remove_outliers_sublist (remove_outliers data sigma) sigma

/-- C4 (counterexample): `percentile` does not clamp for every `p ≥ 100`: at
`p = 150` on `[1, 2, 3]` the lower interpolation index is `int(2 · 1.5) = 3`,
which is out of range, and Python raises `IndexError` (modelled as `none`)
— the clamp protects only the upper index `c`. -/
theorem c4_percentile_150_index_error : percentile [1, 2, 3] 150 = none := by
  norm_num [percentile, pySorted, pyTrunc, pyIndex, List.insertionSort, List.orderedInsert,
    Int.tdiv, Int.toNat]
  exact fun h => absurd h (by simp)

/-- C4 (amended): `percentile` of an empty list is 0 for every `p`; and for a
non-empty list and `p ≥ 100` it returns the maximum element provided the
truncated index `int((n−1)·p/100)` still lies within the list (as it always
does at `p = 100`, or for a singleton list); beyond that the lower index
itself is out of range and the call raises `IndexError` instead of clamping
(see the counterexample). -/
theorem c4_percentile_clamp :
    (∀ p : ℚ, percentile [] p = some 0) ∧
    ∀ (data : List ℚ) (p m : ℚ), data ≠ [] → 100 ≤ p →
      pyTrunc (((data.length : ℚ) - 1) * p / 100) ≤ (data.length : ℤ) - 1 →
      data.maximum = some m → percentile data p = some m := by
  refine ⟨fun p => by simp [percentile], ?_⟩
  intro data p m hne hp hft hm
  have hn : 0 < data.length := List.length_pos.mpr hne
  have hn1 : (1 : ℚ) ≤ (data.length : ℚ) := by exact_mod_cast hn
  have hp0 : (0 : ℚ) ≤ p := le_trans (by norm_num) hp
  have hk0 : 0 ≤ ((data.length : ℚ) - 1) * p / 100 :=
    div_nonneg (mul_nonneg (by linarith) hp0) (by norm_num)
  have hfeq : pyTrunc (((data.length : ℚ) - 1) * p / 100) = (data.length : ℤ) - 1 := by
    refine le_antisymm hft ?_
    rw [pyTrunc_eq_floor _ hk0, Int.le_floor]
    push_cast
    calc ((data.length : ℚ) - 1) = ((data.length : ℚ) - 1) * 100 / 100 := by ring
      _ ≤ ((data.length : ℚ) - 1) * p / 100 := by gcongr; linarith
  have hlt : data.length - 1 < (pySorted data).length := by
    rw [pySorted_length]
    omega
  have hidx : pyIndex (pySorted data) ((data.length : ℤ) - 1) =
      some ((pySorted data)[data.length - 1]) := by
    rw [pyIndex, if_pos (by omega : (0 : ℤ) ≤ (data.length : ℤ) - 1)]
    rw [show ((data.length : ℤ) - 1).toNat = data.length - 1 by omega]
    rw [List.get?_eq_getElem?, List.getElem?_eq_getElem hlt]
  simp only [percentile, if_neg hne, pySorted_length, hfeq,
    if_neg (lt_irrefl ((data.length : ℤ) - 1)), hidx]
  rw [pySorted_getElem_max data m hm hlt]
  norm_num

/-- C4 (witness): the amended clamp theorem at the concrete input `[5]`,
`p = 150`: a singleton list clamps for any `p ≥ 100`. -/
theorem c4_percentile_clamp_witness : percentile [(5 : ℚ)] 150 = some 5 := by
  refine c4_percentile_clamp.2 [(5 : ℚ)] 150 5 (by simp) (by norm_num) ?_ (by decide)
  norm_num [pyTrunc]

/-- C5 (counterexample): when step 1 (navigate) fails, `workflow_search_extract`
stops with exactly one recorded step and `success = false`, but its `error`
field is `None` — it does not reference step 1's failure (only
`workflow_login` sets `error` on a step-1 failure). -/
theorem c5_search_extract_error_is_none :
    (workflow_search_extract failTool 0).steps.length = 1 ∧
    (workflow_search_extract failTool 0).success = false ∧
    (workflow_search_extract failTool 0).error = none := by
  refine ⟨?_, ?_, ?_⟩ <;> rfl

/-- C5 (amended): if the first (navigate) step of a workflow fails, the
workflow stops immediately with exactly one recorded step and overall
`success = false`; `workflow_login` additionally sets `error` to
`"Step 1 failed: <error>"`, while `workflow_search_extract` leaves `error`
unset (`None`). -/
theorem c5_first_step_short_circuit (tool : MTool) (i : ℕ) :
    ((tool.navigate "https://the-internet.herokuapp.com/login").success = false →
      (workflow_login tool i).steps.length = 1 ∧
      (workflow_login tool i).success = false ∧
      (workflow_login tool i).error =
        some ("Step 1 failed: " ++
          pyShowErr (tool.navigate "https://the-internet.herokuapp.com/login").error)) ∧
    ((tool.navigate "https://quotes.toscrape.com/").success = false →
      (workflow_search_extract tool i).steps.length = 1 ∧
      (workflow_search_extract tool i).success = false ∧
      (workflow_search_extract tool i).error = none) := by
  constructor <;> intro h <;>
    refine ⟨?_, ?_, ?_⟩ <;>
    simp [workflow_login, workflow_search_extract, h]

/-- C5 (witness): the short-circuit theorem applied to the concrete failing
adapter `failTool`. -/
theorem c5_first_step_short_circuit_witness :
    (workflow_login failTool 0).steps.length = 1 ∧
    (workflow_login failTool 0).error = some "Step 1 failed: boom" ∧
    (workflow_search_extract failTool 0).success = false := by
  have h := c5_first_step_short_circuit failTool 0
  have h1 := h.1 rfl
  have h2 := h.2 rfl
  refine ⟨h1.1, ?_, h2.2.1⟩
  rw [h1.2.2]
  rfl

/-- C6 (counterexample): for `parallel_count = 6` the tester does not
dispatch six requests — `CONCURRENT_URLS[:6]` holds only the five listed
URLs. -/
theorem c6_dispatch_capped_at_five : (dispatchedUrls 6).length ≠ 6 := by
  decide

/-- C6 (amended): for `1 ≤ parallel_count ≤ 5` (the length of
`CONCURRENT_URLS`) the tester dispatches exactly `parallel_count` distinct
URLs to a pool of exactly `parallel_count` workers; every worker is recorded
(a raising worker as a failure with time 0), `success_rate` is the number of
successes over `parallel_count`, and for positive wall time
`requests_per_second = parallel_count / (total_time in seconds)`.  Beyond 5
the dispatch is silently capped (see the counterexample). -/
theorem c6_concurrency (toolName : String) (outcome : String → Option (Bool × ℚ))
    (order : List String) (totalTime : ℚ) (pc : ℕ)
    (h1 : 1 ≤ pc) (h5 : pc ≤ CONCURRENT_URLS.length)
    (hord : order.Perm (dispatchedUrls pc)) :
    (dispatchedUrls pc).length = pc ∧
    (dispatchedUrls pc).Nodup ∧
    threadPoolMaxWorkers pc = pc ∧
    (test_concurrent_requests toolName outcome order totalTime pc).success_rate =
      (((dispatchedUrls pc).countP
          (fun u => match outcome u with | some (true, _) => true | _ => false) : ℕ) : ℚ) /
        (pc : ℚ) ∧
    (test_concurrent_requests toolName outcome order totalTime pc).individual_times_ms.length
      = pc ∧
    (0 < totalTime →
      (test_concurrent_requests toolName outcome order totalTime pc).requests_per_second =
        (pc : ℚ) / (totalTime / 1000)) := by
  have hlen : (dispatchedUrls pc).length = pc := by
    simp only [dispatchedUrls, List.length_take]
    omega
  have hnodup : (dispatchedUrls pc).Nodup :=
    List.Nodup.sublist (List.take_sublist _ _) (by decide : CONCURRENT_URLS.Nodup)
  have holen : order.length = pc := by rw [hord.length_eq, hlen]
  refine ⟨hlen, hnodup, rfl, ?_, ?_, ?_⟩
  · simp only [test_concurrent_requests, if_pos hord]
    have hne : (order.map fun u =>
        match outcome u with
        | some (s, t) => (s, t)
        | none => (false, (0 : ℚ))).map Prod.fst ≠ [] := by
      simp only [ne_eq, List.map_eq_nil_iff]
      intro hord0
      rw [hord0] at holen
      simp at holen
      omega
    rw [if_pos hne]
    simp only [List.map_map, List.length_map, holen, List.countP_map]
    congr 1
    have : ∀ u ∈ order,
        ((id ∘ Prod.fst ∘ fun u =>
          match outcome u with
          | some (s, t) => (s, t)
          | none => (false, (0 : ℚ))) u) =
        (fun u => match outcome u with | some (true, _) => true | _ => false) u := by
      intro u _
      rcases houtcome : outcome u with _ | ⟨s, t⟩
      · simp [Function.comp, houtcome]
      · cases s <;> simp [Function.comp, houtcome]
    rw [List.countP_congr fun x hx => by rw [this x hx], hord.countP_eq]
  · simp only [test_concurrent_requests, if_pos hord]
    simp [holen]
  · intro ht
    simp only [test_concurrent_requests, if_pos hord]
    rw [if_pos ht]

/-- C6 (witness): the concurrency theorem at the specification's concrete
scenario — three dispatched requests, two succeeding in 200 ms and one
raising — gives `success_rate = 2/3`, and `requests_per_second =
3 / total_seconds` (3 rps at one second of wall time). -/
theorem c6_concurrency_witness :
    (test_concurrent_requests "fgp" exampleOutcome (dispatchedUrls 3) 1000 3).success_rate
      = 2 / 3 ∧
    (test_concurrent_requests "fgp" exampleOutcome (dispatchedUrls 3) 1000 3).requests_per_second
      = 3 := by
  have h := c6_concurrency "fgp" exampleOutcome (dispatchedUrls 3) 1000 3
    (by norm_num) (by decide) (List.Perm.refl _)
  have hcount : (dispatchedUrls 3).countP
      (fun u => match exampleOutcome u with | some (true, _) => true | _ => false) = 2 := by
    decide
  constructor
  · rw [h.2.2.2.1, hcount]
    norm_num
  · rw [h.2.2.2.2.2 (by norm_num)]
    norm_num

/-- C7: on five successful trials with latencies `[100, 100, 100, 100, 500]`
the computed operation summary has `mean_ms = 180` (so ≈ 180),
`median_ms = 100`, `p95_ms = 420` (which lies between 100 and 500), and
`max_ms = 500`. -/
theorem c7_summary_concrete :
    ((compute_summary c7results).map (fun s => s.mean_ms)).getD 0 = 180 ∧
    ((compute_summary c7results).map (fun s => s.median_ms)).getD 0 = 100 ∧
    ((compute_summary c7results).map (fun s => s.p95_ms)).getD 0 = 420 ∧
    ((100 : ℚ) ≤ 420 ∧ (420 : ℚ) ≤ 500) ∧
    ((compute_summary c7results).map (fun s => s.max_ms)).getD 0 = 500 := by
  have h95 : percentile [100, 100, 100, 100, 500] 95 = some 420 := by
    norm_num [percentile, pySorted, pyTrunc, pyIndex, List.insertionSort, List.orderedInsert,
      Int.tdiv, Int.toNat]
    exact fun h => absurd h (by simp)
  have h99 : percentile [100, 100, 100, 100, 500] 99 = some 484 := by
    norm_num [percentile, pySorted, pyTrunc, pyIndex, List.insertionSort, List.orderedInsert,
      Int.tdiv, Int.toNat]
    exact fun h => absurd h (by simp)
  refine ⟨?_, ?_, ?_, by norm_num, ?_⟩ <;>
  · simp only [compute_summary, c7results, List.filter]
    norm_num
    rw [h95, h99]
    norm_num [pymean, pymedian, pymax, pySorted, List.insertionSort, List.orderedInsert,
      List.getD, max_def]
    try simp

/-! ## Lemmas for the Mann-Whitney claim -/

lemma countLT_append (v : ℚ) (a b : List ℚ) :
    countLT v (a ++ b) = countLT v a + countLT v b := by
  simp [countLT, List.filter_append]

lemma countEQ_append (v : ℚ) (a b : List ℚ) :
    countEQ v (a ++ b) = countEQ v a + countEQ v b := by
  simp [countEQ, List.filter_append]

lemma countLT_eq_zero (v : ℚ) (a : List ℚ) (h : ∀ x ∈ a, v ≤ x) : countLT v a = 0 := by
  simp only [countLT, List.length_eq_zero, List.filter_eq_nil_iff, decide_eq_true_eq]
  intro x hx
  exact not_lt.mpr (h x hx)

lemma countLT_eq_length (v : ℚ) (a : List ℚ) (h : ∀ x ∈ a, x < v) : countLT v a = a.length := by
  unfold countLT
  rw [List.filter_eq_self.mpr]
  intro x hx
  simpa using h x hx

lemma countEQ_eq_length (v : ℚ) (a : List ℚ) (h : ∀ x ∈ a, x = v) : countEQ v a = a.length := by
  unfold countEQ
  rw [List.filter_eq_self.mpr]
  intro x hx
  simpa using h x hx

lemma countEQ_eq_zero (v : ℚ) (a : List ℚ) (h : ∀ x ∈ a, x ≠ v) : countEQ v a = 0 := by
  simp only [countEQ, List.length_eq_zero, List.filter_eq_nil_iff, decide_eq_true_eq]
  exact h

lemma countLT_perm (v : ℚ) {a b : List ℚ} (h : a.Perm b) : countLT v a = countLT v b :=
  (h.filter _).length_eq

lemma countEQ_perm (v : ℚ) {a b : List ℚ} (h : a.Perm b) : countEQ v a = countEQ v b :=
  (h.filter _).length_eq

lemma sorted_dropWhile_gt (v : ℚ) :
    ∀ l : List MWEntry, l.Sorted mwLE → (∀ f ∈ l, v ≤ f.val) →
      ∀ f ∈ l.dropWhile (fun g => decide (g.val = v)), v < f.val := by
  intro l
  induction l with
  | nil => intro _ _ f hf; simp at hf
  | cons a as ih =>
    intro hsort hge f hf
    rw [List.dropWhile_cons] at hf
    by_cases ha : a.val = v
    · rw [if_pos (by simpa using ha)] at hf
      exact ih (List.sorted_cons.mp hsort).2 (fun g hg => hge g (List.mem_cons_of_mem a hg)) f hf
    · rw [if_neg (by simpa using ha)] at hf
      have hav : v < a.val := lt_of_le_of_ne (hge a (List.mem_cons_self a as)) (Ne.symm ha)
      rcases List.mem_cons.mp hf with rfl | hfs
      · exact hav
      · exact lt_of_lt_of_le hav (List.rel_of_sorted_cons hsort f hfs)

lemma assignRanks_sorted_eq (l : List MWEntry) (i : ℕ) (hl : l.Sorted mwLE) :
    assignRanks l i =
      l.map fun e => (i : ℚ) + specRank e.val (l.map MWEntry.val) := by
  induction l, i using assignRanks.induct with
  | case1 i => simp [assignRanks]
  | case2 e es i run rest j ih =>
    have hsplit : run ++ rest = e :: es := List.takeWhile_append_dropWhile _ _
    have hrunval : ∀ f ∈ run, f.val = e.val := fun f hf => by
      simpa using List.mem_takeWhile_imp hf
    have hrest_sorted : rest.Sorted mwLE :=
      List.Pairwise.sublist (List.dropWhile_sublist _) hl
    have hge : ∀ f ∈ e :: es, e.val ≤ f.val := by
      intro f hf
      rcases List.mem_cons.mp hf with rfl | hfs
      · exact le_refl _
      · exact List.rel_of_sorted_cons hl f hfs
    have hgt : ∀ f ∈ rest, e.val < f.val := sorted_dropWhile_gt e.val (e :: es) hl hge
    have hVge : ∀ x ∈ List.map MWEntry.val run ++ List.map MWEntry.val rest, e.val ≤ x := by
      rw [← List.map_append, hsplit]
      intro x hx
      obtain ⟨f, hf, rfl⟩ := List.mem_map.mp hx
      exact hge f hf
    have hj : (j : ℚ) = (i : ℚ) + (run.length : ℚ) := by
      show ((i + run.length : ℕ) : ℚ) = _
      push_cast
      ring
    rw [assignRanks, ih hrest_sorted]
    conv_rhs => rw [← hsplit]
    simp only [List.map_append]
    congr 1
    · symm
      have hval : ∀ b ∈ run.map
          (fun f => (i : ℚ) + specRank f.val
            (List.map MWEntry.val run ++ List.map MWEntry.val rest)),
          b = ((i : ℚ) + 1 + (j : ℚ)) / 2 := by
        intro b hb
        obtain ⟨f, hf, rfl⟩ := List.mem_map.mp hb
        have hfe : f.val = e.val := hrunval f hf
        have hlt : countLT f.val
            (List.map MWEntry.val run ++ List.map MWEntry.val rest) = 0 := by
          apply countLT_eq_zero
          intro x hx
          rw [hfe]
          exact hVge x hx
        have heq : countEQ f.val
            (List.map MWEntry.val run ++ List.map MWEntry.val rest) = run.length := by
          rw [countEQ_append]
          rw [countEQ_eq_length _ _ (by
            intro x hx
            obtain ⟨g, hg, rfl⟩ := List.mem_map.mp hx
            rw [hrunval g hg, hfe])]
          rw [countEQ_eq_zero _ _ (by
            intro x hx
            obtain ⟨g, hg, rfl⟩ := List.mem_map.mp hx
            rw [hfe]
            exact ne_of_gt (hgt g hg))]
          simp
        rw [specRank, hlt, heq, hj]
        push_cast
        ring
      have h2 := List.eq_replicate_of_mem hval
      rw [List.length_map] at h2
      exact h2
    · apply List.map_congr_left
      intro f hf
      have hwgt : e.val < f.val := hgt f hf
      have hlt : countLT f.val (List.map MWEntry.val run ++ List.map MWEntry.val rest) =
          run.length + countLT f.val (rest.map MWEntry.val) := by
        rw [countLT_append]
        rw [countLT_eq_length _ _ (by
          intro x hx
          obtain ⟨g, hg, rfl⟩ := List.mem_map.mp hx
          rw [hrunval g hg]
          exact hwgt)]
        simp
      have heq : countEQ f.val (List.map MWEntry.val run ++ List.map MWEntry.val rest) =
          countEQ f.val (rest.map MWEntry.val) := by
        rw [countEQ_append]
        rw [countEQ_eq_zero _ _ (by
          intro x hx
          obtain ⟨g, hg, rfl⟩ := List.mem_map.mp hx
          rw [hrunval g hg]
          exact ne_of_lt hwgt)]
        simp
      rw [specRank, specRank, hlt, heq, hj]
      push_cast
      ring

lemma zip_map_self {α β : Type} (g : α → β) :
    ∀ l : List α, (l.map g).zip l = l.map fun a => (g a, a)
  | [] => rfl
  | a :: t => by simp [zip_map_self g t]

lemma mwCombined_map_val (s1 s2 : List ℚ) :
    (mwCombined s1 s2).map MWEntry.val = s1 ++ s2 := by
  simp only [mwCombined, List.map_append, List.map_map]
  rw [show (MWEntry.val ∘ fun p : ℕ × ℚ => MWEntry.mk p.2 1 p.1) = Prod.snd from rfl]
  rw [show (MWEntry.val ∘ fun p : ℕ × ℚ => MWEntry.mk p.2 2 p.1) = Prod.snd from rfl]
  rw [List.enum_map_snd, List.enum_map_snd]

lemma mw_rank1_sum (s1 s2 : List ℚ) :
    ((((assignRanks (List.insertionSort mwLE (mwCombined s1 s2)) 0).zip
        (List.insertionSort mwLE (mwCombined s1 s2))).filter
      (fun q => decide (q.2.group = 1))).map Prod.fst).sum = mwSpecRankSum s1 s2 := by
  have hsorted : (List.insertionSort mwLE (mwCombined s1 s2)).Sorted mwLE :=
    List.sorted_insertionSort mwLE _
  have hperm : (List.insertionSort mwLE (mwCombined s1 s2)).Perm (mwCombined s1 s2) :=
    List.perm_insertionSort mwLE _
  have hvals : ∀ v : ℚ,
      specRank v ((List.insertionSort mwLE (mwCombined s1 s2)).map MWEntry.val) =
        specRank v (s1 ++ s2) := by
    intro v
    have hp : ((List.insertionSort mwLE (mwCombined s1 s2)).map MWEntry.val).Perm
        (s1 ++ s2) := by
      rw [← mwCombined_map_val s1 s2]
      exact hperm.map _
    rw [specRank, specRank, countLT_perm v hp, countEQ_perm v hp]
  rw [assignRanks_sorted_eq _ 0 hsorted, zip_map_self, List.filter_map, List.map_map]
  simp only [Nat.cast_zero]
  have hsum1 : ∀ L : List MWEntry,
      (L.map (Prod.fst ∘ fun a : MWEntry =>
        ((0 : ℚ) + specRank a.val
          ((List.insertionSort mwLE (mwCombined s1 s2)).map MWEntry.val), a))).sum =
      (L.map fun a : MWEntry => specRank a.val (s1 ++ s2)).sum := by
    intro L
    congr 1
    refine List.map_congr_left fun a _ => ?_
    simp [hvals a.val]
  rw [hsum1]
  have hpermf : (((List.insertionSort mwLE (mwCombined s1 s2)).filter
        ((fun q : ℚ × MWEntry => decide (q.2.group = 1)) ∘ fun a : MWEntry =>
          ((0 : ℚ) + specRank a.val
            ((List.insertionSort mwLE (mwCombined s1 s2)).map MWEntry.val), a))).map
      fun a : MWEntry => specRank a.val (s1 ++ s2)).Perm
      (((mwCombined s1 s2).filter (fun a : MWEntry => decide (a.group = 1))).map
        fun a : MWEntry => specRank a.val (s1 ++ s2)) := by
    refine List.Perm.map _ ?_
    have : ((fun q : ℚ × MWEntry => decide (q.2.group = 1)) ∘ fun a : MWEntry =>
        ((0 : ℚ) + specRank a.val
          ((List.insertionSort mwLE (mwCombined s1 s2)).map MWEntry.val), a)) =
        fun a : MWEntry => decide (a.group = 1) := rfl
    rw [this]
    exact hperm.filter _
  rw [hpermf.sum_eq]
  rw [mwCombined, List.filter_append]
  rw [List.filter_eq_self.mpr (by
    intro a ha
    obtain ⟨p, _, rfl⟩ := List.mem_map.mp ha
    simp)]
  rw [List.filter_eq_nil_iff.mpr (by
    intro a ha
    obtain ⟨p, _, rfl⟩ := List.mem_map.mp ha
    simp)]
  rw [List.append_nil, List.map_map]
  rw [show ((fun a : MWEntry => specRank a.val (s1 ++ s2)) ∘ fun p : ℕ × ℚ =>
      MWEntry.mk p.2 1 p.1) = (fun x : ℚ => specRank x (s1 ++ s2)) ∘ Prod.snd from rfl]
  rw [← List.map_map, List.enum_map_snd, mwSpecRankSum]

/-- C2: for non-empty samples, `mann_whitney_u` computes exactly what the
claim describes: tied blocks receive the average rank of the block (the
count-based `specRank`), `U1 = rank-sum(sample1) − n1(n1+1)/2`,
`U2 = n1·n2 − U1`, `U = min(U1, U2)`, and the two-tailed p-value is
`2·(1 − Φ(|z|))` with `z = (U − n1·n2/2) / sqrt(n1·n2·(n1+n2+1)/12)`. -/
theorem c2_mann_whitney_matches_spec (ncdf : ℝ → ℝ) (s1 s2 : List ℚ)
    (h1 : s1 ≠ []) (h2 : s2 ≠ []) :
    mann_whitney_u ncdf s1 s2 = (mwSpecU s1 s2, mwSpecP ncdf s1 s2) := by
  have l1 : 0 < s1.length := List.length_pos.mpr h1
  have l2 : 0 < s2.length := List.length_pos.mpr h2
  have r1 : (0 : ℝ) < (s1.length : ℝ) := by exact_mod_cast l1
  have r2 : (0 : ℝ) < (s2.length : ℝ) := by exact_mod_cast l2
  have hstd : Real.sqrt ((s1.length : ℝ) * (s2.length : ℝ) *
      ((s1.length : ℝ) + (s2.length : ℝ) + 1) / 12) ≠ 0 := by
    refine ne_of_gt (Real.sqrt_pos.mpr ?_)
    positivity
  simp only [mann_whitney_u]
  rw [if_neg (by simp [h1, h2])]
  rw [if_neg hstd]
  rw [mw_rank1_sum s1 s2]
  refine Prod.ext rfl ?_
  show 2 * (1 - ncdf _) = mwSpecP ncdf s1 s2
  rw [mwSpecP]
  congr 3
  rw [mwSpecZ]
  congr 1
  · rw [show mwSpecU s1 s2 =
        min (mwSpecRankSum s1 s2 - (s1.length : ℚ) * ((s1.length : ℚ) + 1) / 2)
          ((s1.length : ℚ) * (s2.length : ℚ) -
            (mwSpecRankSum s1 s2 - (s1.length : ℚ) * ((s1.length : ℚ) + 1) / 2)) from rfl]
    push_cast
    ring

/-- C2 (witness): the refinement theorem at the concrete samples `[1, 2]`,
`[2, 3]` (with a tie across the samples) and an arbitrary concrete CDF. -/
theorem c2_mann_whitney_matches_spec_witness :
    mann_whitney_u (fun _ => 1 / 2) [1, 2] [2, 3] =
      (mwSpecU [1, 2] [2, 3], mwSpecP (fun _ => 1 / 2) [1, 2] [2, 3]) :=
  c2_mann_whitney_matches_spec (fun _ => 1 / 2) [1, 2] [2, 3] (by simp) (by simp)

/-! ## Lemmas for the comparator claim -/

lemma append_underscore_inj :
    ∀ (a : List Char) (c : List Char) (b d : List Char), '_' ∉ a → '_' ∉ c →
      a ++ '_' :: b = c ++ '_' :: d → a = c ∧ b = d := by
  intro a
  induction a with
  | nil =>
    intro c b d _ hc h
    cases c with
    | nil => simpa using h
    | cons y ys =>
      simp only [List.nil_append, List.cons_append, List.cons.injEq] at h
      exact absurd (h.1 ▸ List.mem_cons_self y ys) (by simp_all)
  | cons x xs ih =>
    intro c b d ha hc h
    cases c with
    | nil =>
      simp only [List.cons_append, List.nil_append, List.cons.injEq] at h
      exact absurd (h.1 ▸ List.mem_cons_self x xs) (by simp_all)
    | cons y ys =>
      simp only [List.cons_append, List.cons.injEq] at h
      obtain ⟨rfl, h2⟩ := h
      obtain ⟨rfl, rfl⟩ := ih ys b d (fun hm => ha (List.mem_cons_of_mem _ hm))
        (fun hm => hc (List.mem_cons_of_mem _ hm)) h2
      exact ⟨rfl, rfl⟩

lemma string_data_key2 (t op : String) :
    (t ++ "_" ++ op).data = t.data ++ '_' :: op.data := by
  simp [String.data_append]

lemma key2_inj {t op t' op' : String} (ht : noUS t) (ht' : noUS t')
    (h : t ++ "_" ++ op = t' ++ "_" ++ op') : t = t' ∧ op = op' := by
  have hd : t.data ++ '_' :: op.data = t'.data ++ '_' :: op'.data := by
    rw [← string_data_key2, ← string_data_key2, h]
  obtain ⟨h1, h2⟩ := append_underscore_inj t.data t'.data op.data op'.data ht ht' hd
  exact ⟨String.ext h1, String.ext h2⟩

lemma string_data_key3 (op a b : String) :
    (op ++ "_" ++ a ++ "_vs_" ++ b).data =
      op.data ++ '_' :: (a.data ++ '_' :: ('v' :: 's' :: '_' :: b.data)) := by
  simp [String.data_append]

lemma key3_inj {op a b op' a' b' : String} (hop : noUS op) (ha : noUS a)
    (hop' : noUS op') (ha' : noUS a')
    (h : op ++ "_" ++ a ++ "_vs_" ++ b = op' ++ "_" ++ a' ++ "_vs_" ++ b') :
    op = op' ∧ a = a' ∧ b = b' := by
  have hd : op.data ++ '_' :: (a.data ++ '_' :: ('v' :: 's' :: '_' :: b.data)) =
      op'.data ++ '_' :: (a'.data ++ '_' :: ('v' :: 's' :: '_' :: b'.data)) := by
    rw [← string_data_key3, ← string_data_key3, h]
  obtain ⟨h1, h2⟩ := append_underscore_inj op.data op'.data _ _ hop hop' hd
  obtain ⟨h3, h4⟩ := append_underscore_inj a.data a'.data _ _ ha ha' h2
  simp only [List.cons.injEq, true_and] at h4
  exact ⟨String.ext h1, String.ext h3, String.ext h4⟩

lemma pyListSet_aux_mem (l : List String) :
    ∀ (acc : List String) (x : String),
      x ∈ l.foldl (fun acc x => if x ∈ acc then acc else acc ++ [x]) acc ↔
        x ∈ acc ∨ x ∈ l := by
  induction l with
  | nil => simp
  | cons a t ih =>
    intro acc x
    simp only [List.foldl_cons]
    by_cases ha : a ∈ acc
    · rw [if_pos ha, ih]
      constructor
      · rintro (h | h)
        · exact Or.inl h
        · exact Or.inr (List.mem_cons_of_mem a h)
      · rintro (h | h)
        · exact Or.inl h
        · rcases List.mem_cons.mp h with rfl | h'
          · exact Or.inl ha
          · exact Or.inr h'
    · rw [if_neg ha, ih]
      simp only [List.mem_append, List.mem_singleton, List.mem_cons]
      tauto

lemma pyListSet_mem (l : List String) (x : String) : x ∈ pyListSet l ↔ x ∈ l := by
  rw [pyListSet, pyListSet_aux_mem]
  simp

lemma pyListSet_aux_nodup (l : List String) :
    ∀ acc : List String, acc.Nodup →
      (l.foldl (fun acc x => if x ∈ acc then acc else acc ++ [x]) acc).Nodup := by
  induction l with
  | nil => simp
  | cons a t ih =>
    intro acc hacc
    simp only [List.foldl_cons]
    by_cases ha : a ∈ acc
    · rw [if_pos ha]
      exact ih acc hacc
    · rw [if_neg ha]
      refine ih _ ?_
      simp [List.nodup_append, hacc, ha]

lemma pyListSet_nodup (l : List String) : (pyListSet l).Nodup :=
  pyListSet_aux_nodup l [] List.nodup_nil

lemma dictLookup_isSome {β : Type} (m : List (String × β)) (k : String) :
    (dictLookup m k).isSome ↔ ∃ p ∈ m, p.1 = k := by
  simp [dictLookup, List.find?_isSome]

lemma dictInsertLat_keys (m : List (String × List ℚ)) (k k' : String) (v : ℚ) :
    (∃ p ∈ dictInsertLat m k v, p.1 = k') ↔ (∃ p ∈ m, p.1 = k') ∨ k' = k := by
  rw [dictInsertLat]
  by_cases hk : m.any (fun p => p.1 = k)
  · rw [if_pos hk]
    obtain ⟨q, hq, hq1⟩ := List.any_eq_true.mp hk
    constructor
    · rintro ⟨p, hp, hp1⟩
      obtain ⟨p0, hp0, rfl⟩ := List.mem_map.mp hp
      by_cases h0 : p0.1 = k
      · rw [if_pos h0] at hp1
        exact Or.inl ⟨p0, hp0, hp1⟩
      · rw [if_neg h0] at hp1
        exact Or.inl ⟨p0, hp0, hp1⟩
    · rintro (⟨p, hp, hp1⟩ | h')
      · refine ⟨if p.1 = k then (p.1, p.2 ++ [v]) else p, List.mem_map_of_mem _ hp, ?_⟩
        by_cases h0 : p.1 = k
        · rw [if_pos h0]
          simpa [h0] using hp1
        · rw [if_neg h0]
          exact hp1
      · subst h'
        refine ⟨if q.1 = k' then (q.1, q.2 ++ [v]) else q, List.mem_map_of_mem _ hq, ?_⟩
        rw [if_pos (by simpa using hq1)]
        simpa using hq1
  · rw [if_neg hk]
    simp only [List.mem_append, List.mem_singleton]
    constructor
    · rintro ⟨p, hp | rfl, hp1⟩
      · exact Or.inl ⟨p, hp, hp1⟩
      · exact Or.inr hp1.symm
    · rintro (⟨p, hp, hp1⟩ | h')
      · exact ⟨p, Or.inl hp, hp1⟩
      · subst h'
        exact ⟨(k', [v]), Or.inr rfl, rfl⟩

lemma buildByToolOp_keys (raw : List RawResult) (k : String) :
    (∃ p ∈ buildByToolOp raw, p.1 = k) ↔
      ∃ r ∈ raw, r.success = true ∧ r.tool ++ "_" ++ r.operation = k := by
  rw [buildByToolOp]
  suffices h : ∀ acc : List (String × List ℚ),
      (∃ p ∈ raw.foldl
        (fun m r =>
          if r.success then dictInsertLat m (r.tool ++ "_" ++ r.operation) r.latency_ms
          else m) acc, p.1 = k) ↔
      ((∃ p ∈ acc, p.1 = k) ∨ ∃ r ∈ raw, r.success = true ∧ r.tool ++ "_" ++ r.operation = k) by
    rw [h []]
    simp
  induction raw with
  | nil => simp
  | cons r t ih =>
    intro acc
    simp only [List.foldl_cons]
    by_cases hs : r.success
    · rw [if_pos hs, ih, dictInsertLat_keys]
      simp only [List.mem_cons]
      constructor
      · rintro ((h | h) | h)
        · exact Or.inl h
        · exact Or.inr ⟨r, Or.inl rfl, hs, h.symm⟩
        · obtain ⟨r', hr', h1, h2⟩ := h
          exact Or.inr ⟨r', Or.inr hr', h1, h2⟩
      · rintro (h | ⟨r', hr | hr', h1, h2⟩)
        · exact Or.inl (Or.inl h)
        · subst hr
          exact Or.inl (Or.inr h2.symm)
        · exact Or.inr ⟨r', hr', h1, h2⟩
    · rw [if_neg hs, ih]
      simp only [List.mem_cons]
      constructor
      · rintro (h | ⟨r', hr', h1, h2⟩)
        · exact Or.inl h
        · exact Or.inr ⟨r', Or.inr hr', h1, h2⟩
      · rintro (h | ⟨r', hr | hr', h1, h2⟩)
        · exact Or.inl h
        · subst hr
          exact absurd h1 (by simpa using hs)
        · exact Or.inr ⟨r', hr', h1, h2⟩

lemma upairs_mem_imp {α : Type} {x y : α} :
    ∀ {l : List α}, (x, y) ∈ upairs l → x ∈ l ∧ y ∈ l := by
  intro l
  induction l with
  | nil => simp [upairs]
  | cons a t ih =>
    intro h
    rcases List.mem_append.mp h with h' | h'
    · obtain ⟨b, hb, hxy⟩ := List.mem_map.mp h'
      obtain ⟨rfl, rfl⟩ := Prod.mk.inj hxy.symm
      exact ⟨List.mem_cons_self _ _, List.mem_cons_of_mem _ hb⟩
    · obtain ⟨hx, hy⟩ := ih h'
      exact ⟨List.mem_cons_of_mem a hx, List.mem_cons_of_mem a hy⟩

lemma upairs_ne {α : Type} {x y : α} :
    ∀ {l : List α}, l.Nodup → (x, y) ∈ upairs l → x ≠ y := by
  intro l
  induction l with
  | nil => simp [upairs]
  | cons a t ih =>
    intro hnd h
    rcases List.mem_append.mp h with h' | h'
    · obtain ⟨b, hb, hxy⟩ := List.mem_map.mp h'
      obtain ⟨rfl, rfl⟩ := Prod.mk.inj hxy.symm
      intro hxy'
      exact (List.nodup_cons.mp hnd).1 (hxy' ▸ hb)
    · exact ih (List.nodup_cons.mp hnd).2 h'

lemma upairs_mem_of {α : Type} [DecidableEq α] {x y : α} :
    ∀ {l : List α}, x ∈ l → y ∈ l → x ≠ y →
      (x, y) ∈ upairs l ∨ (y, x) ∈ upairs l := by
  intro l
  induction l with
  | nil => simp
  | cons a t ih =>
    intro hx hy hne
    rcases List.mem_cons.mp hx with rfl | hx'
    · have hy' : y ∈ t := by
        rcases List.mem_cons.mp hy with rfl | hy'
        · exact absurd rfl hne
        · exact hy'
      exact Or.inl (List.mem_append.mpr (Or.inl (List.mem_map_of_mem _ hy')))
    · rcases List.mem_cons.mp hy with rfl | hy'
      · exact Or.inr (List.mem_append.mpr (Or.inl (List.mem_map_of_mem _ hx')))
      · rcases ih hx' hy' hne with h | h
        · exact Or.inl (List.mem_append.mpr (Or.inr h))
        · exact Or.inr (List.mem_append.mpr (Or.inr h))

lemma upairs_not_both {α : Type} {x y : α} :
    ∀ {l : List α}, l.Nodup → (x, y) ∈ upairs l → (y, x) ∉ upairs l := by
  intro l
  induction l with
  | nil => simp [upairs]
  | cons a t ih =>
    intro hnd h1 h2
    obtain ⟨hat, htnd⟩ := List.nodup_cons.mp hnd
    rcases List.mem_append.mp h1 with h1' | h1'
    · obtain ⟨b, hb, hxy⟩ := List.mem_map.mp h1'
      obtain ⟨rfl, rfl⟩ := Prod.mk.inj hxy.symm
      rcases List.mem_append.mp h2 with h2' | h2'
      · obtain ⟨c, hc, hyx⟩ := List.mem_map.mp h2'
        obtain ⟨rfl, rfl⟩ := Prod.mk.inj hyx.symm
        exact hat hb
      · exact hat (upairs_mem_imp h2').2
    · rcases List.mem_append.mp h2 with h2' | h2'
      · obtain ⟨c, hc, hyx⟩ := List.mem_map.mp h2'
        obtain ⟨rfl, rfl⟩ := Prod.mk.inj hyx.symm
        exact hat (upairs_mem_imp h1').2
      · exact ih htnd h1' h2'

lemma upairs_nodup {α : Type} : ∀ {l : List α}, l.Nodup → (upairs l).Nodup := by
  intro l
  induction l with
  | nil => simp [upairs]
  | cons a t ih =>
    intro hnd
    obtain ⟨hat, htnd⟩ := List.nodup_cons.mp hnd
    rw [upairs, List.nodup_append]
    refine ⟨List.Nodup.map (fun b c h => (Prod.mk.inj h).2) htnd, ih htnd, ?_⟩
    intro p hp hq
    obtain ⟨b, hb, rfl⟩ := List.mem_map.mp hp
    exact hat (upairs_mem_imp hq).1

lemma inner_fold_eq (bto : List (String × List ℚ)) (op : String) :
    ∀ (pairs : List (String × String)) (m : List (String × SigResult)),
      pairs.foldl (fun m' ab =>
        match dictLookup bto (ab.1 ++ "_" ++ op), dictLookup bto (ab.2 ++ "_" ++ op) with
        | some data_a, some data_b =>
          dictInsertComp m' (op ++ "_" ++ ab.1 ++ "_vs_" ++ ab.2)
            ⟨ab.1, ab.2, data_a, data_b⟩
        | _, _ => m') m
      = insertAll m (pairs.filterMap (pairItem bto op)) := by
  intro pairs
  induction pairs with
  | nil => intro m; rfl
  | cons ab rest ih =>
    intro m
    simp only [List.foldl_cons, List.filterMap_cons]
    rcases h1 : dictLookup bto (ab.1 ++ "_" ++ op) with _ | da <;>
      rcases h2 : dictLookup bto (ab.2 ++ "_" ++ op) with _ | db <;>
      simp only [pairItem, h1, h2] <;>
      exact ih _

lemma insertAll_append (m : List (String × SigResult))
    (xs ys : List (String × SigResult)) :
    insertAll m (xs ++ ys) = insertAll (insertAll m xs) ys := by
  simp [insertAll, List.foldl_append]

lemma outer_fold_eq (g : String → List (String × SigResult)) :
    ∀ (ops : List String) (m : List (String × SigResult)),
      ops.foldl (fun m' op => insertAll m' (g op)) m = insertAll m (ops.flatMap g) := by
  intro ops
  induction ops with
  | nil => intro m; rfl
  | cons op rest ih =>
    intro m
    simp only [List.foldl_cons, List.flatMap_cons]
    rw [ih, insertAll_append]

lemma compute_statistics_eq_insertAll (raw : List RawResult) :
    compute_statistics raw = insertAll [] (allItems raw) := by
  rw [compute_statistics, allItems]
  have h : ∀ (ops : List String) (m : List (String × SigResult)),
      ops.foldl (fun m' op =>
        (upairs (pyListSet (raw.map fun r => r.tool))).foldl
          (fun m'' ab =>
            match dictLookup (buildByToolOp raw) (ab.1 ++ "_" ++ op),
                dictLookup (buildByToolOp raw) (ab.2 ++ "_" ++ op) with
            | some data_a, some data_b =>
              dictInsertComp m'' (op ++ "_" ++ ab.1 ++ "_vs_" ++ ab.2)
                ⟨ab.1, ab.2, data_a, data_b⟩
            | _, _ => m'') m') m =
      insertAll m (ops.flatMap fun op =>
        (upairs (pyListSet (raw.map fun r => r.tool))).filterMap
          (pairItem (buildByToolOp raw) op)) := by
    intro ops m
    rw [← outer_fold_eq]
    have hfun : (fun (m' : List (String × SigResult)) (op : String) =>
        (upairs (pyListSet (raw.map fun r => r.tool))).foldl
          (fun m'' ab =>
            match dictLookup (buildByToolOp raw) (ab.1 ++ "_" ++ op),
                dictLookup (buildByToolOp raw) (ab.2 ++ "_" ++ op) with
            | some data_a, some data_b =>
              dictInsertComp m'' (op ++ "_" ++ ab.1 ++ "_vs_" ++ ab.2)
                ⟨ab.1, ab.2, data_a, data_b⟩
            | _, _ => m'') m') =
        fun m' op => insertAll m'
          ((upairs (pyListSet (raw.map fun r => r.tool))).filterMap
            (pairItem (buildByToolOp raw) op)) := by
      funext m' op
      exact inner_fold_eq _ _ _ _
    rw [hfun]
  exact h _ []

lemma insertAll_eq_append :
    ∀ (items : List (String × SigResult)) (m : List (String × SigResult)),
      (∀ kv ∈ items, ¬∃ p ∈ m, p.1 = kv.1) → (items.map Prod.fst).Nodup →
      insertAll m items = m ++ items := by
  intro items
  induction items with
  | nil => intro m _ _; simp [insertAll]
  | cons kv rest ih =>
    intro m hfresh hnd
    have hn : ¬(m.any fun p => decide (p.1 = kv.1)) = true := by
      intro hany
      obtain ⟨p, hp, hp1⟩ := List.any_eq_true.mp hany
      exact hfresh kv (List.mem_cons_self _ _) ⟨p, hp, by simpa using hp1⟩
    have hstep : dictInsertComp m kv.1 kv.2 = m ++ [kv] := by
      rw [dictInsertComp, if_neg hn]
    have hnd2 : (kv.1 :: rest.map Prod.fst).Nodup := by simpa using hnd
    have hnd' := List.nodup_cons.mp hnd2
    have hfresh' : ∀ kv' ∈ rest, ¬∃ p ∈ m ++ [kv], p.1 = kv'.1 := by
      rintro kv' hkv' ⟨p, hp, hp1⟩
      rcases List.mem_append.mp hp with hp' | hp'
      · exact hfresh kv' (List.mem_cons_of_mem _ hkv') ⟨p, hp', hp1⟩
      · have hpkv : p = kv := by simpa using hp'
        subst hpkv
        exact hnd'.1 (hp1 ▸ List.mem_map_of_mem Prod.fst hkv')
    have hrest : insertAll m (kv :: rest) = insertAll (m ++ [kv]) rest := by
      rw [insertAll, List.foldl_cons, hstep]
      rfl
    rw [hrest, ih (m ++ [kv]) hfresh' hnd'.2]
    simp

lemma mem_tools_noUS (raw : List RawResult)
    (hus : ∀ r ∈ raw, noUS r.tool ∧ noUS r.operation) :
    ∀ t ∈ pyListSet (raw.map fun r => r.tool), noUS t := by
  intro t ht
  obtain ⟨r, hr, rfl⟩ := List.mem_map.mp ((pyListSet_mem _ _).mp ht)
  exact (hus r hr).1

lemma mem_ops_noUS (raw : List RawResult)
    (hus : ∀ r ∈ raw, noUS r.tool ∧ noUS r.operation) :
    ∀ op ∈ pyListSet (raw.map fun r => r.operation), noUS op := by
  intro op hop
  obtain ⟨r, hr, rfl⟩ := List.mem_map.mp ((pyListSet_mem _ _).mp hop)
  exact (hus r hr).2

lemma pairItem_eq_some (bto : List (String × List ℚ)) (op : String) (ab : String × String)
    (kv : String × SigResult) :
    pairItem bto op ab = some kv ↔
      ∃ data_a data_b, dictLookup bto (ab.1 ++ "_" ++ op) = some data_a ∧
        dictLookup bto (ab.2 ++ "_" ++ op) = some data_b ∧
        kv = (op ++ "_" ++ ab.1 ++ "_vs_" ++ ab.2, ⟨ab.1, ab.2, data_a, data_b⟩) := by
  rcases h1 : dictLookup bto (ab.1 ++ "_" ++ op) with _ | da <;>
    rcases h2 : dictLookup bto (ab.2 ++ "_" ++ op) with _ | db <;>
    simp [pairItem, h1, h2, eq_comm]

lemma lookup_bto_isSome (raw : List RawResult)
    (hus : ∀ r ∈ raw, noUS r.tool ∧ noUS r.operation) (t op : String)
    (ht : noUS t) :
    (dictLookup (buildByToolOp raw) (t ++ "_" ++ op)).isSome ↔ hasSucc raw t op := by
  rw [dictLookup_isSome, buildByToolOp_keys]
  constructor
  · rintro ⟨r, hr, hs, hk⟩
    obtain ⟨h1, h2⟩ := key2_inj (hus r hr).1 ht hk
    exact ⟨r, hr, h1, h2, hs⟩
  · rintro ⟨r, hr, h1, h2, hs⟩
    exact ⟨r, hr, hs, by rw [h1, h2]⟩

lemma flatMap_sublist {α β : Type} {f g : α → List β} :
    ∀ l : List α, (∀ a ∈ l, (f a).Sublist (g a)) → (l.flatMap f).Sublist (l.flatMap g) := by
  intro l
  induction l with
  | nil => simp
  | cons a t ih =>
    intro h
    simp only [List.flatMap_cons]
    exact List.Sublist.append (h a (List.mem_cons_self _ _))
      (ih fun b hb => h b (List.mem_cons_of_mem _ hb))

lemma filterMap_sublist_map {α β : Type} {f : α → β} {g : α → Option β} :
    ∀ l : List α, (∀ a ∈ l, g a = none ∨ g a = some (f a)) →
      (l.filterMap g).Sublist (l.map f) := by
  intro l
  induction l with
  | nil => simp
  | cons a t ih =>
    intro h
    rcases h a (List.mem_cons_self _ _) with ha | ha <;>
      simp only [List.filterMap_cons, ha, List.map_cons]
    · exact (ih fun b hb => h b (List.mem_cons_of_mem _ hb)).cons _
    · exact (ih fun b hb => h b (List.mem_cons_of_mem _ hb)).cons₂ _

lemma pairItem_map_fst (bto : List (String × List ℚ)) (op : String) (ab : String × String) :
    (pairItem bto op ab).map Prod.fst = none ∨
      (pairItem bto op ab).map Prod.fst = some (op ++ "_" ++ ab.1 ++ "_vs_" ++ ab.2) := by
  rcases h1 : dictLookup bto (ab.1 ++ "_" ++ op) with _ | da <;>
    rcases h2 : dictLookup bto (ab.2 ++ "_" ++ op) with _ | db <;>
    simp [pairItem, h1, h2]

lemma allItems_keys_nodup (raw : List RawResult)
    (hus : ∀ r ∈ raw, noUS r.tool ∧ noUS r.operation) :
    ((allItems raw).map Prod.fst).Nodup := by
  have htoolsUS := mem_tools_noUS raw hus
  have hopsUS := mem_ops_noUS raw hus
  have hT : ((pyListSet (raw.map fun r => r.operation)).flatMap fun op =>
      (upairs (pyListSet (raw.map fun r => r.tool))).map fun ab =>
        op ++ "_" ++ ab.1 ++ "_vs_" ++ ab.2).Nodup := by
    rw [List.nodup_flatMap]
    constructor
    · intro op hop
      refine List.Nodup.map_on ?_ (upairs_nodup (pyListSet_nodup _))
      intro ab hab ab' hab' hk
      obtain ⟨_, h1, h2⟩ := key3_inj (hopsUS op hop) (htoolsUS _ (upairs_mem_imp hab).1)
        (hopsUS op hop) (htoolsUS _ (upairs_mem_imp hab').1) hk
      exact Prod.ext h1 h2
    · refine List.Pairwise.imp_of_mem ?_ (pyListSet_nodup _)
      intro op op' hop hop' hne k hk hk'
      obtain ⟨ab, hab, rfl⟩ := List.mem_map.mp hk
      obtain ⟨ab', hab', hk2⟩ := List.mem_map.mp hk'
      obtain ⟨h0, _, _⟩ := key3_inj (hopsUS op' hop') (htoolsUS _ (upairs_mem_imp hab').1)
        (hopsUS op hop) (htoolsUS _ (upairs_mem_imp hab).1) hk2
      exact hne (h0.symm)
  refine List.Sublist.nodup ?_ hT
  rw [allItems, List.map_flatMap]
  refine flatMap_sublist _ fun op _ => ?_
  rw [List.map_filterMap]
  exact filterMap_sublist_map _ fun ab _ => pairItem_map_fst _ op ab

lemma compute_statistics_eq_allItems (raw : List RawResult)
    (hus : ∀ r ∈ raw, noUS r.tool ∧ noUS r.operation) :
    compute_statistics raw = allItems raw := by
  rw [compute_statistics_eq_insertAll]
  rw [insertAll_eq_append (allItems raw) [] (by simp) (allItems_keys_nodup raw hus)]
  simp

lemma pairItem_isSome (bto : List (String × List ℚ)) (op : String) (ab : String × String) :
    (pairItem bto op ab).isSome ↔
      (dictLookup bto (ab.1 ++ "_" ++ op)).isSome ∧
        (dictLookup bto (ab.2 ++ "_" ++ op)).isSome := by
  rcases h1 : dictLookup bto (ab.1 ++ "_" ++ op) with _ | da <;>
    rcases h2 : dictLookup bto (ab.2 ++ "_" ++ op) with _ | db <;>
    simp [pairItem, h1, h2]

lemma pairItem_fst_eq_some (bto : List (String × List ℚ)) (op : String)
    (ab : String × String) (K : String) :
    (pairItem bto op ab).map Prod.fst = some K ↔
      (pairItem bto op ab).isSome ∧ K = op ++ "_" ++ ab.1 ++ "_vs_" ++ ab.2 := by
  rcases h1 : dictLookup bto (ab.1 ++ "_" ++ op) with _ | da <;>
    rcases h2 : dictLookup bto (ab.2 ++ "_" ++ op) with _ | db <;>
    simp [pairItem, h1, h2, eq_comm]

lemma mem_allItems_keys (raw : List RawResult) (K : String) :
    K ∈ (allItems raw).map Prod.fst ↔
      ∃ op ∈ pyListSet (raw.map fun r => r.operation),
        ∃ ab ∈ upairs (pyListSet (raw.map fun r => r.tool)),
          (pairItem (buildByToolOp raw) op ab).isSome ∧
            K = op ++ "_" ++ ab.1 ++ "_vs_" ++ ab.2 := by
  rw [allItems, List.map_flatMap]
  simp only [List.mem_flatMap, List.map_filterMap, List.mem_filterMap]
  constructor
  · rintro ⟨op, hop, ab, hab, hK⟩
    obtain ⟨hs, hk⟩ := (pairItem_fst_eq_some _ _ _ _).mp hK
    exact ⟨op, hop, ab, hab, hs, hk⟩
  · rintro ⟨op, hop, ab, hab, hs, hk⟩
    exact ⟨op, hop, ab, hab, (pairItem_fst_eq_some _ _ _ _).mpr ⟨hs, hk⟩⟩

lemma countP_or_eq_count_add {K1 K2 : String} (h : K1 ≠ K2) :
    ∀ l : List String,
      l.countP (fun k => decide (k = K1 ∨ k = K2)) = l.count K1 + l.count K2 := by
  intro l
  induction l with
  | nil => simp
  | cons a t ih =>
    rw [List.countP_cons, List.count_cons, List.count_cons, ih]
    have h' : K2 ≠ K1 := Ne.symm h
    by_cases h1 : a = K1 <;> by_cases h2 : a = K2
    · exact absurd (h1 ▸ h2 : K1 = K2) (by simpa using h)
    · simp [beq_iff_eq, h1, h2, h, h']
      omega
    · simp [beq_iff_eq, h1, h2, h, h']
      omega
    · simp [beq_iff_eq, h1, h2]

lemma countP_keys_eq_one (raw : List RawResult)
    (hus : ∀ r ∈ raw, noUS r.tool ∧ noUS r.operation) (op x y : String)
    (hop : op ∈ pyListSet (raw.map fun r => r.operation))
    (hxy : (x, y) ∈ upairs (pyListSet (raw.map fun r => r.tool)))
    (hSx : hasSucc raw x op) (hSy : hasSucc raw y op) :
    ((allItems raw).map Prod.fst).countP
      (fun k => decide (k = op ++ "_" ++ x ++ "_vs_" ++ y ∨
        k = op ++ "_" ++ y ++ "_vs_" ++ x)) = 1 := by
  have htoolsUS := mem_tools_noUS raw hus
  have hopsUS := mem_ops_noUS raw hus
  have hUSop : noUS op := hopsUS op hop
  have hUSx : noUS x := htoolsUS _ (upairs_mem_imp hxy).1
  have hUSy : noUS y := htoolsUS _ (upairs_mem_imp hxy).2
  have hnexy : x ≠ y := upairs_ne (pyListSet_nodup _) hxy
  have hKne : op ++ "_" ++ x ++ "_vs_" ++ y ≠ op ++ "_" ++ y ++ "_vs_" ++ x := by
    intro hK
    exact hnexy (key3_inj hUSop hUSx hUSop hUSy hK).2.1
  have hnd := allItems_keys_nodup raw hus
  rw [countP_or_eq_count_add hKne]
  have hmem1 : op ++ "_" ++ x ++ "_vs_" ++ y ∈ (allItems raw).map Prod.fst := by
    rw [mem_allItems_keys]
    refine ⟨op, hop, (x, y), hxy, ?_, rfl⟩
    rw [pairItem_isSome]
    exact ⟨(lookup_bto_isSome raw hus x op hUSx).mpr hSx,
      (lookup_bto_isSome raw hus y op hUSy).mpr hSy⟩
  have hmem2 : op ++ "_" ++ y ++ "_vs_" ++ x ∉ (allItems raw).map Prod.fst := by
    intro hm
    rw [mem_allItems_keys] at hm
    obtain ⟨op', hop', ab', hab', _, hkeq⟩ := hm
    obtain ⟨h0, h1, h2⟩ := key3_inj hUSop hUSy (hopsUS op' hop')
      (htoolsUS _ (upairs_mem_imp hab').1) hkeq
    have : ab' = (y, x) := Prod.ext h1.symm h2.symm
    subst this
    exact upairs_not_both (pyListSet_nodup _) hxy hab'
  rw [List.count_eq_one_of_mem hnd hmem1, List.count_eq_zero.mpr hmem2]

/-- C3 (amended): when tool and operation names contain no underscore (so the
underscore-joined dict keys are unambiguous), `compute_statistics` produces
exactly one comparison per operation and unordered pair of tools that both
have at least one successful sample for that operation, keyed
`"{operation}_{toolA}_vs_{toolB}"`, and every stored comparison is between
two distinct tools each having at least one successful sample for its
operation.  Without that restriction, colliding keys can overwrite an
earlier comparison (see the counterexample). -/
theorem c3_comparator_pairing (raw : List RawResult)
    (hus : ∀ r ∈ raw, noUS r.tool ∧ noUS r.operation) :
    (∀ op a b : String, a ≠ b → hasSucc raw a op → hasSucc raw b op →
      (compute_statistics raw).countP
        (fun e => decide (e.1 = op ++ "_" ++ a ++ "_vs_" ++ b ∨
          e.1 = op ++ "_" ++ b ++ "_vs_" ++ a)) = 1) ∧
    (∀ kv ∈ compute_statistics raw,
      ∃ op, kv.1 = op ++ "_" ++ kv.2.tool_a ++ "_vs_" ++ kv.2.tool_b ∧
        kv.2.tool_a ≠ kv.2.tool_b ∧
        hasSucc raw kv.2.tool_a op ∧ hasSucc raw kv.2.tool_b op) := by
  have htoolsUS := mem_tools_noUS raw hus
  rw [compute_statistics_eq_allItems raw hus]
  constructor
  · intro op a b hne hSa hSb
    have ha : a ∈ pyListSet (raw.map fun r => r.tool) := by
      obtain ⟨r, hr, h1, _, _⟩ := hSa
      exact (pyListSet_mem _ _).mpr (List.mem_map.mpr ⟨r, hr, h1⟩)
    have hb : b ∈ pyListSet (raw.map fun r => r.tool) := by
      obtain ⟨r, hr, h1, _, _⟩ := hSb
      exact (pyListSet_mem _ _).mpr (List.mem_map.mpr ⟨r, hr, h1⟩)
    have hop : op ∈ pyListSet (raw.map fun r => r.operation) := by
      obtain ⟨r, hr, _, h2, _⟩ := hSa
      exact (pyListSet_mem _ _).mpr (List.mem_map.mpr ⟨r, hr, h2⟩)
    have hcp : (allItems raw).countP
        (fun e => decide (e.1 = op ++ "_" ++ a ++ "_vs_" ++ b ∨
          e.1 = op ++ "_" ++ b ++ "_vs_" ++ a)) =
        ((allItems raw).map Prod.fst).countP
          (fun k => decide (k = op ++ "_" ++ a ++ "_vs_" ++ b ∨
            k = op ++ "_" ++ b ++ "_vs_" ++ a)) := by
      rw [List.countP_map]
      exact List.countP_congr fun e _ => Iff.rfl
    rcases upairs_mem_of ha hb hne with hab | hba
    · rw [hcp]
      exact countP_keys_eq_one raw hus op a b hop hab hSa hSb
    · rw [hcp]
      have h1 := countP_keys_eq_one raw hus op b a hop hba hSb hSa
      rw [← h1]
      exact List.countP_congr fun k _ => by simp [or_comm]
  · intro kv hkv
    rw [allItems, List.mem_flatMap] at hkv
    obtain ⟨op, hop, hkv2⟩ := hkv
    rw [List.mem_filterMap] at hkv2
    obtain ⟨ab, hab, hpi⟩ := hkv2
    obtain ⟨da, db, hla, hlb, rfl⟩ := (pairItem_eq_some _ _ _ _).mp hpi
    refine ⟨op, rfl, upairs_ne (pyListSet_nodup _) hab, ?_, ?_⟩
    · exact (lookup_bto_isSome raw hus ab.1 op
        (htoolsUS _ (upairs_mem_imp hab).1)).mp (by simp [hla])
    · exact (lookup_bto_isSome raw hus ab.2 op
        (htoolsUS _ (upairs_mem_imp hab).2)).mp (by simp [hlb])

/-- C3 (counterexample): with tool names `q_r`, `r`, `s` and operations `p`,
`p_q`, both tools `q_r` and `s` have a successful sample for operation `p`,
yet the final comparisons dict holds no comparison between them: its key
`"p_q_r_vs_s"` collides with the key of the (`p_q`, `r` vs `s`) comparison,
which overwrites it. -/
theorem c3_key_collision_loses_comparison :
    hasSucc c3raw "q_r" "p" ∧ hasSucc c3raw "s" "p" ∧
    (compute_statistics c3raw).countP
      (fun e => decide (e.2.tool_a = "q_r" ∧ e.2.tool_b = "s" ∨
        e.2.tool_a = "s" ∧ e.2.tool_b = "q_r")) = 0 := by
  refine ⟨by decide, by decide, by decide⟩

/-- C3 (witness): the pairing theorem at a concrete two-tool pool with
underscore-free names. -/
theorem c3_comparator_pairing_witness :
    (compute_statistics [⟨"fgp", "nav", true, 10⟩, ⟨"mcp", "nav", true, 20⟩]).countP
      (fun e => decide (e.1 = "nav" ++ "_" ++ "fgp" ++ "_vs_" ++ "mcp" ∨
        e.1 = "nav" ++ "_" ++ "mcp" ++ "_vs_" ++ "fgp")) = 1 :=
  (c3_comparator_pairing [⟨"fgp", "nav", true, 10⟩, ⟨"mcp", "nav", true, 20⟩]
    (by decide)).1 "nav" "fgp" "mcp" (by decide) (by decide) (by decide)
